import Mathlib

/-!
Shallow embedding of the DNS codec in `src/src/server/c/dns/codec.c`.

Bytes are `Nat` values below 256, buffers are lists of bytes, and the C
read cursor (an `unsigned char**` pointer together with an `ssize_t*`
remaining-length counter) is a structure holding a list view and an `Int`
counter.  Machine-integer narrowing at C conversion points is modelled by
explicit `% 2^w`.  The write path builds the output buffer as a list, so the
running write index of the C code is the length of the list built so far.
-/

/-- One length-prefixed domain-name label (`dnsmsg_label_t`). -/
structure dnsmsg_label_t where
  name_size : Nat
  name : List Nat
deriving DecidableEq

/-- One DNS question entry (`dnsmsg_question_t`). -/
structure dnsmsg_question_t where
  labels_size : Nat
  labels : List dnsmsg_label_t
  type : Nat
  cls : Nat
deriving DecidableEq

/-- One resource record (`dnsmsg_rr_t`). -/
structure dnsmsg_rr_t where
  labels_size : Nat
  labels : List dnsmsg_label_t
  type : Nat
  cls : Nat
  ttl : Nat
  data_size : Nat
  data : List Nat
deriving DecidableEq

/-- The fixed 12-octet message header (`dnsmsg_header_t`): six 16-bit fields. -/
structure dnsmsg_header_t where
  id : Nat
  status_flags : Nat
  query_count : Nat
  answer_count : Nat
  authority_count : Nat
  additional_count : Nat
deriving DecidableEq

/-- A whole DNS message (`dnsmsg_t`). -/
structure dnsmsg_t where
  header : dnsmsg_header_t
  questions : List dnsmsg_question_t
  answers : List dnsmsg_rr_t
  authorities : List dnsmsg_rr_t
  additionals : List dnsmsg_rr_t
deriving DecidableEq

/-- The decode cursor: the not-yet-consumed byte view and the `ssize_t`
remaining-length counter, which may go negative. -/
structure Cursor where
  view : List Nat
  rem : Int
deriving DecidableEq

/-- `pop_int8`: decrement the counter first; if it is still non-negative,
consume and return the front octet, otherwise return 0 and consume nothing. -/
def pop_int8 (c : Cursor) : Nat × Cursor :=
  if 0 ≤ c.rem - 1 then
    (c.view.headD 0 % 256, ⟨c.view.tail, c.rem - 1⟩)
  else
    (0, ⟨c.view, c.rem - 1⟩)

/-- `pop_int16`: two `pop_int8` combined big-endian, narrowed to 16 bits. -/
def pop_int16 (c : Cursor) : Nat × Cursor :=
  let p := pop_int8 c
  let q := pop_int8 p.2
  ((p.1 <<< 8 ||| q.1) % 65536, q.2)

/-- `pop_int32`: two `pop_int16` combined big-endian, narrowed to 32 bits. -/
def pop_int32 (c : Cursor) : Nat × Cursor :=
  let p := pop_int16 c
  let q := pop_int16 p.2
  ((p.1 <<< 16 ||| q.1) % 4294967296, q.2)

/-- `n` consecutive `pop_int8` reads (the label-body and RDATA loops). -/
def popBytes : Nat → Cursor → List Nat × Cursor
  | 0, c => ([], c)
  | n + 1, c =>
    let p := pop_int8 c
    let q := popBytes n p.2
    (p.1 :: q.1, q.2)

/-- The `interpret_labels` while-loop, made structural on a fuel bound on the
number of iterations.  Fuel 0 still pops the loop-condition octet, exactly as
the C loop does; with fuel at least `c.rem.toNat` the fuel never runs out,
because each iteration needs a non-negative counter and consumes at least two
counter units. -/
def labels_go : Nat → Cursor → List dnsmsg_label_t × Cursor
  | 0, c => ([], (pop_int8 c).2)
  | f + 1, c =>
    let p := pop_int8 c
    if 0 < p.1 then
      let q := popBytes p.1 p.2
      let r := labels_go f q.2
      (⟨p.1, q.1⟩ :: r.1, r.2)
    else
      ([], p.2)

/-- `interpret_labels`: read labels until a zero length octet is consumed. -/
def interpret_labels (c : Cursor) : List dnsmsg_label_t × Cursor :=
  labels_go c.rem.toNat c

/-- The question-reading loop of `interpret_question`: each entry is labels,
then 16-bit type, then 16-bit class; the `uint16_t labels_size` field stores
the label count narrowed to 16 bits. -/
def interpret_questions : Nat → Cursor → List dnsmsg_question_t × Cursor
  | 0, c => ([], c)
  | n + 1, c =>
    let ls := interpret_labels c
    let ty := pop_int16 ls.2
    let cl := pop_int16 ty.2
    let rest := interpret_questions n cl.2
    (⟨ls.1.length % 65536, ls.1, ty.1, cl.1⟩ :: rest.1, rest.2)

/-- `interpret_rr`: read `amount` resource records, each labels, type, class,
ttl, data_size, then `data_size` raw octets. -/
def interpret_rr : Nat → Cursor → List dnsmsg_rr_t × Cursor
  | 0, c => ([], c)
  | n + 1, c =>
    let ls := interpret_labels c
    let ty := pop_int16 ls.2
    let cl := pop_int16 ty.2
    let tt := pop_int32 cl.2
    let ds := pop_int16 tt.2
    let da := popBytes ds.1 ds.2
    let rest := interpret_rr n da.2
    (⟨ls.1.length % 65536, ls.1, ty.1, cl.1, tt.1, ds.1, da.1⟩ :: rest.1, rest.2)

/-- The full decode walk of `interpret_question`: header fields in fixed
order, then `query_count` questions, then the three record sections.  Returns
the message together with the final cursor. -/
def interpret_message (c : Cursor) : dnsmsg_t × Cursor :=
  let i1 := pop_int16 c
  let i2 := pop_int16 i1.2
  let i3 := pop_int16 i2.2
  let i4 := pop_int16 i3.2
  let i5 := pop_int16 i4.2
  let i6 := pop_int16 i5.2
  let qs := interpret_questions i3.1 i6.2
  let an := interpret_rr i4.1 qs.2
  let au := interpret_rr i5.1 an.2
  let ad := interpret_rr i6.1 au.2
  (⟨⟨i1.1, i2.1, i3.1, i4.1, i5.1, i6.1⟩, qs.1, an.1, au.1, ad.1⟩, ad.2)

/-- `interpret_question`: decode a buffer of declared size; after the whole
walk, write 1 into the error flag when the final counter is negative, and
leave the caller's flag value untouched otherwise. -/
def interpret_question (buffer : List Nat) (buffer_size : Int) (error_flag : Int) :
    dnsmsg_t × Int :=
  let r := interpret_message ⟨buffer, buffer_size⟩
  (r.1, if r.2.rem < 0 then 1 else error_flag)

/-- `append_int8`: one octet, narrowed to 8 bits by the `uint8_t` parameter. -/
def append_int8 (value : Nat) : List Nat :=
  [value % 256]

/-- `append_int16`: high octet then low octet of the 16-bit value. -/
def append_int16 (value : Nat) : List Nat :=
  append_int8 ((value % 65536) >>> 8) ++ append_int8 ((value % 65536) &&& 255)

/-- `append_int32`: high 16-bit half then low 16-bit half. -/
def append_int32 (value : Nat) : List Nat :=
  append_int16 ((value % 4294967296) >>> 16) ++ append_int16 ((value % 4294967296) &&& 65535)

/-- The inner write loops over `name[j]` / `data[j]` for `j < n`: reading past
the end of the list models reading the zero-initialized tail the decoder
allocates with `calloc`. -/
def write_bytes (xs : List Nat) : Nat → List Nat
  | 0 => []
  | n + 1 => append_int8 (xs.headD 0) ++ write_bytes xs.tail n

/-- The label loop of `append_labels`: for each of the first `n` array slots,
the length octet followed by that many name octets. -/
def append_label_list : List dnsmsg_label_t → Nat → List Nat
  | _, 0 => []
  | ls, n + 1 =>
    append_int8 (ls.headD ⟨0, []⟩).name_size ++
      write_bytes (ls.headD ⟨0, []⟩).name (ls.headD ⟨0, []⟩).name_size ++
      append_label_list ls.tail n

/-- `append_labels`: the label list followed, unconditionally, by exactly one
zero-length terminator octet. -/
def append_labels (labels : List dnsmsg_label_t) (labels_size : Nat) : List Nat :=
  append_label_list labels labels_size ++ append_int8 0

/-- The question loop of `serialize_message`. -/
def append_questions : List dnsmsg_question_t → Nat → List Nat
  | _, 0 => []
  | qs, n + 1 =>
    append_labels (qs.headD ⟨0, [], 0, 0⟩).labels (qs.headD ⟨0, [], 0, 0⟩).labels_size ++
      append_int16 (qs.headD ⟨0, [], 0, 0⟩).type ++
      append_int16 (qs.headD ⟨0, [], 0, 0⟩).cls ++
      append_questions qs.tail n

/-- `append_resource_records`: labels, type, class, ttl, data_size, then the
raw data octets, for each of the first `amount` records. -/
def append_resource_records : List dnsmsg_rr_t → Nat → List Nat
  | _, 0 => []
  | rs, n + 1 =>
    append_labels (rs.headD ⟨0, [], 0, 0, 0, 0, []⟩).labels
        (rs.headD ⟨0, [], 0, 0, 0, 0, []⟩).labels_size ++
      append_int16 (rs.headD ⟨0, [], 0, 0, 0, 0, []⟩).type ++
      append_int16 (rs.headD ⟨0, [], 0, 0, 0, 0, []⟩).cls ++
      append_int32 (rs.headD ⟨0, [], 0, 0, 0, 0, []⟩).ttl ++
      append_int16 (rs.headD ⟨0, [], 0, 0, 0, 0, []⟩).data_size ++
      write_bytes (rs.headD ⟨0, [], 0, 0, 0, 0, []⟩).data
        (rs.headD ⟨0, [], 0, 0, 0, 0, []⟩).data_size ++
      append_resource_records rs.tail n

/-- `serialize_message`: header fields, questions, then the three record
sections, in the identical order `interpret_question` reads them. -/
def serialize_message (message : dnsmsg_t) : List Nat :=
  append_int16 message.header.id ++
    append_int16 message.header.status_flags ++
    append_int16 message.header.query_count ++
    append_int16 message.header.answer_count ++
    append_int16 message.header.authority_count ++
    append_int16 message.header.additional_count ++
    append_questions message.questions message.header.query_count ++
    append_resource_records message.answers message.header.answer_count ++
    append_resource_records message.authorities message.header.authority_count ++
    append_resource_records message.additionals message.header.additional_count

/-- `calc_labels_size`: 1 for the mandatory terminator octet, plus, for each
of the first `labels_size` slots, 1 length octet plus the name length. -/
def calc_labels_size : List dnsmsg_label_t → Nat → Nat
  | _, 0 => 1
  | ls, n + 1 => 1 + (ls.headD ⟨0, []⟩).name_size + calc_labels_size ls.tail n

/-- The question loop of `calc_message_size`: labels size plus 2 (type) plus
2 (class) per question. -/
def calc_questions_size : List dnsmsg_question_t → Nat → Nat
  | _, 0 => 0
  | qs, n + 1 =>
    calc_labels_size (qs.headD ⟨0, [], 0, 0⟩).labels (qs.headD ⟨0, [], 0, 0⟩).labels_size +
      2 + 2 + calc_questions_size qs.tail n

/-- `calc_resource_records_size`: labels size plus 2 + 2 + 4 + 2 fixed octets
plus `data_size` per record. -/
def calc_resource_records_size : List dnsmsg_rr_t → Nat → Nat
  | _, 0 => 0
  | rs, n + 1 =>
    calc_labels_size (rs.headD ⟨0, [], 0, 0, 0, 0, []⟩).labels
        (rs.headD ⟨0, [], 0, 0, 0, 0, []⟩).labels_size +
      2 + 2 + 4 + 2 + (rs.headD ⟨0, [], 0, 0, 0, 0, []⟩).data_size +
      calc_resource_records_size rs.tail n

/-- `calc_message_size`: 12 header octets plus the question and record
section sizes. -/
def calc_message_size (message : dnsmsg_t) : Nat :=
  12 + calc_questions_size message.questions message.header.query_count +
    calc_resource_records_size message.answers message.header.answer_count +
    calc_resource_records_size message.authorities message.header.authority_count +
    calc_resource_records_size message.additionals message.header.additional_count

/-- `encode_status_flags`: pack the seven flag fields, with the reserved Z
bits written as zero, into a 16-bit word. -/
def encode_status_flags (qr opcode aa tc rd ra rcode : Nat) : Nat :=
  (qr <<< 15 ||| opcode <<< 11 ||| aa <<< 10 ||| tc <<< 9 ||| rd <<< 8 ||| ra <<< 7 |||
    0 <<< 4 ||| rcode) % 65536

/-- `decode_status_flags`: unpack qr, opcode, aa, tc, rd, ra, rcode by
shift-and-mask at the same offsets. -/
def decode_status_flags (status_flags : Nat) : Nat × Nat × Nat × Nat × Nat × Nat × Nat :=
  ((status_flags >>> 15) &&& 1, (status_flags >>> 11) &&& 15, (status_flags >>> 10) &&& 1,
    (status_flags >>> 9) &&& 1, (status_flags >>> 8) &&& 1, (status_flags >>> 7) &&& 1,
    status_flags &&& 15)

/-- `is_truncated`: extract only the tc bit (bit offset 9) of the header
status word. -/
def is_truncated (message : dnsmsg_t) : Nat :=
  (message.header.status_flags >>> 9) &&& 1

/-- Structural validity of a label as representable by `dnsmsg_label_t`:
the 8-bit length field is 1..255 and matches the stored octets. -/
def dnsmsg_label_t.wf (l : dnsmsg_label_t) : Prop :=
  1 ≤ l.name_size ∧ l.name_size ≤ 255 ∧ l.name.length = l.name_size ∧ ∀ b ∈ l.name, b < 256

instance (l : dnsmsg_label_t) : Decidable l.wf := by
  unfold dnsmsg_label_t.wf; infer_instance

/-- Structural validity of a question: the 16-bit `labels_size` field equals
the label count, all labels are valid, and the fixed fields fit 16 bits. -/
def dnsmsg_question_t.wf (q : dnsmsg_question_t) : Prop :=
  q.labels_size = q.labels.length ∧ q.labels.length < 65536 ∧ (∀ l ∈ q.labels, l.wf) ∧
    q.type < 65536 ∧ q.cls < 65536

instance (q : dnsmsg_question_t) : Decidable q.wf := by
  unfold dnsmsg_question_t.wf; infer_instance

/-- Structural validity of a resource record: field widths respected,
`labels_size` and `data_size` equal the stored lengths. -/
def dnsmsg_rr_t.wf (r : dnsmsg_rr_t) : Prop :=
  r.labels_size = r.labels.length ∧ r.labels.length < 65536 ∧ (∀ l ∈ r.labels, l.wf) ∧
    r.type < 65536 ∧ r.cls < 65536 ∧ r.ttl < 4294967296 ∧
    r.data_size = r.data.length ∧ r.data.length < 65536 ∧ ∀ b ∈ r.data, b < 256

instance (r : dnsmsg_rr_t) : Decidable r.wf := by
  unfold dnsmsg_rr_t.wf; infer_instance

/-- Structural validity of a message: header fields fit 16 bits, every count
field equals the length of its sequence, and all parts are valid. -/
def dnsmsg_t.wf (m : dnsmsg_t) : Prop :=
  m.header.id < 65536 ∧ m.header.status_flags < 65536 ∧
    m.header.query_count = m.questions.length ∧
    m.header.answer_count = m.answers.length ∧
    m.header.authority_count = m.authorities.length ∧
    m.header.additional_count = m.additionals.length ∧
    m.questions.length < 65536 ∧ m.answers.length < 65536 ∧
    m.authorities.length < 65536 ∧ m.additionals.length < 65536 ∧
    (∀ q ∈ m.questions, q.wf) ∧ (∀ r ∈ m.answers, r.wf) ∧
    (∀ r ∈ m.authorities, r.wf) ∧ (∀ r ∈ m.additionals, r.wf)

instance (m : dnsmsg_t) : Decidable m.wf := by
  unfold dnsmsg_t.wf; infer_instance

/-! ### Basic cursor lemmas -/

/-- A cursor aligned with its view: the counter equals the view length,
which is how `interpret_question` starts when called on a buffer together
with that buffer's true length. -/
def mkC (l : List Nat) : Cursor :=
  ⟨l, (l.length : Int)⟩

theorem or_shl (k a b : Nat) (h : b < 2 ^ k) : a <<< k ||| b = a * 2 ^ k + b := by
  induction k generalizing a b with
  | zero =>
    interval_cases b
    simp
  | succ k ih =>
    have h1 : a <<< (k + 1) = Nat.bit false (a <<< k) := by
      simp [Nat.shiftLeft_succ, Nat.bit_val, Nat.mul_comm]
    have h2 : b = Nat.bit (b.testBit 0) (b >>> 1) := (Nat.bit_testBit_zero_shiftRight_one b).symm
    rw [h1, h2, Nat.lor_bit]
    have hpow : (2 : Nat) ^ (k + 1) = 2 ^ k * 2 := by rw [pow_succ]
    have hdiv : b >>> 1 < 2 ^ k := by
      rw [Nat.shiftRight_one]
      omega
    rw [Nat.bit_val, ih a _ hdiv, Nat.bit_val]
    simp only [Nat.shiftRight_one, Nat.testBit_zero, Bool.false_or]
    have hA : a * 2 ^ (k + 1) = 2 * (a * 2 ^ k) := by rw [hpow]; ring
    have hb : b % 2 = 0 ∨ b % 2 = 1 := by omega
    rcases hb with hb | hb <;> simp [hb] <;> omega

theorem shl8_or (hi lo : Nat) (h : lo < 256) : hi <<< 8 ||| lo = hi * 256 + lo := by
  have := or_shl 8 hi lo (by norm_num; omega)
  norm_num at this
  omega

theorem shl16_or (hi lo : Nat) (h : lo < 65536) : hi <<< 16 ||| lo = hi * 65536 + lo := by
  have := or_shl 16 hi lo (by norm_num; omega)
  norm_num at this
  omega

theorem and255_eq (v : Nat) : v &&& 255 = v % 256 := by
  have := Nat.and_pow_two_sub_one_eq_mod v 8
  norm_num at this
  omega

theorem and65535_eq (v : Nat) : v &&& 65535 = v % 65536 := by
  have := Nat.and_pow_two_sub_one_eq_mod v 16
  norm_num at this
  omega

theorem and15_eq (v : Nat) : v &&& 15 = v % 16 := by
  have := Nat.and_pow_two_sub_one_eq_mod v 4
  norm_num at this
  omega

theorem shr8_eq (v : Nat) : v >>> 8 = v / 256 := by
  simp [Nat.shiftRight_eq_div_pow]

theorem shr16_eq (v : Nat) : v >>> 16 = v / 65536 := by
  simp [Nat.shiftRight_eq_div_pow]

theorem pop_int8_rem (c : Cursor) : ((pop_int8 c).2).rem = c.rem - 1 := by
  unfold pop_int8
  split <;> rfl

theorem pop_int8_lt (c : Cursor) : (pop_int8 c).1 < 256 := by
  unfold pop_int8
  split
  · exact Nat.mod_lt _ (by norm_num)
  · norm_num

theorem pop_int8_pos (c : Cursor) (h : 0 < (pop_int8 c).1) : 1 ≤ c.rem := by
  revert h
  unfold pop_int8
  split
  · intro _
    omega
  · intro h
    exact absurd h (lt_irrefl 0)

theorem pop_int16_rem (c : Cursor) : ((pop_int16 c).2).rem = c.rem - 2 := by
  simp only [pop_int16]
  rw [pop_int8_rem, pop_int8_rem]
  ring

theorem pop_int16_lt (c : Cursor) : (pop_int16 c).1 < 65536 := by
  simp only [pop_int16]
  exact Nat.mod_lt _ (by norm_num)

theorem pop_int32_rem (c : Cursor) : ((pop_int32 c).2).rem = c.rem - 4 := by
  simp only [pop_int32]
  rw [pop_int16_rem, pop_int16_rem]
  ring

theorem popBytes_rem (n : Nat) (c : Cursor) : ((popBytes n c).2).rem = c.rem - n := by
  induction n generalizing c with
  | zero => simp [popBytes]
  | succ k ih =>
    simp only [popBytes]
    rw [ih, pop_int8_rem]
    push_cast
    ring

theorem popBytes_length (n : Nat) (c : Cursor) : ((popBytes n c).1).length = n := by
  induction n generalizing c with
  | zero => simp [popBytes]
  | succ k ih => simp [popBytes, ih]

/-! ### Exact-read round-trip lemmas on aligned cursors -/

theorem pop_int8_mkC (b : Nat) (rest : List Nat) :
    pop_int8 (mkC (b :: rest)) = (b % 256, mkC rest) := by
  have h : (0 : Int) ≤ ((b :: rest).length : Int) - 1 := by
    simp [List.length_cons]
  unfold pop_int8 mkC
  rw [if_pos h]
  simp [List.length_cons]

theorem append_int16_eq (v : Nat) (hv : v < 65536) : append_int16 v = [v / 256, v % 256] := by
  have h1 : v % 65536 = v := Nat.mod_eq_of_lt hv
  simp [append_int16, append_int8, h1, and255_eq, shr8_eq]
  omega

theorem pop_int16_mkC (v : Nat) (rest : List Nat) (hv : v < 65536) :
    pop_int16 (mkC (append_int16 v ++ rest)) = (v, mkC rest) := by
  rw [append_int16_eq v hv]
  simp only [pop_int16, List.cons_append, List.nil_append]
  rw [pop_int8_mkC, pop_int8_mkC]
  simp only []
  have hd : v / 256 % 256 = v / 256 := Nat.mod_eq_of_lt (by omega)
  have hm : v % 256 % 256 = v % 256 := Nat.mod_eq_of_lt (by omega)
  rw [hd, hm, shl8_or _ _ (by omega)]
  have : v / 256 * 256 + v % 256 = v := by omega
  rw [this, Nat.mod_eq_of_lt hv]

theorem append_int32_eq (v : Nat) (hv : v < 4294967296) :
    append_int32 v = append_int16 (v / 65536) ++ append_int16 (v % 65536) := by
  have h1 : v % 4294967296 = v := Nat.mod_eq_of_lt hv
  simp [append_int32, h1, and65535_eq, shr16_eq]

theorem pop_int32_mkC (v : Nat) (rest : List Nat) (hv : v < 4294967296) :
    pop_int32 (mkC (append_int32 v ++ rest)) = (v, mkC rest) := by
  rw [append_int32_eq v hv, List.append_assoc]
  simp only [pop_int32]
  rw [pop_int16_mkC _ _ (by omega), pop_int16_mkC _ _ (by omega)]
  simp only []
  rw [shl16_or _ _ (by omega)]
  have : v / 65536 * 65536 + v % 65536 = v := by omega
  rw [this, Nat.mod_eq_of_lt hv]

/-! ### Byte-run and label round-trips -/

theorem write_bytes_length (xs : List Nat) (n : Nat) : (write_bytes xs n).length = n := by
  induction n generalizing xs with
  | zero => rfl
  | succ k ih => simp [write_bytes, append_int8, ih]

theorem write_bytes_wf (xs : List Nat) (h : ∀ b ∈ xs, b < 256) :
    write_bytes xs xs.length = xs := by
  induction xs with
  | nil => rfl
  | cons a t ih =>
    simp only [List.length_cons, write_bytes, List.headD_cons, List.tail_cons, append_int8]
    rw [Nat.mod_eq_of_lt (h a (by simp))]
    rw [ih (fun b hb => h b (by simp [hb]))]
    rfl

theorem popBytes_mkC (bs rest : List Nat) (h : ∀ b ∈ bs, b < 256) :
    popBytes bs.length (mkC (bs ++ rest)) = (bs, mkC rest) := by
  induction bs with
  | nil => rfl
  | cons a t ih =>
    simp only [List.length_cons, popBytes, List.cons_append]
    rw [pop_int8_mkC]
    simp only []
    rw [ih (fun b hb => h b (by simp [hb]))]
    rw [Nat.mod_eq_of_lt (h a (by simp))]

theorem append_labels_cons (l : dnsmsg_label_t) (ls : List dnsmsg_label_t) (h : l.wf) :
    append_labels (l :: ls) (ls.length + 1) =
      l.name_size :: (l.name ++ append_labels ls ls.length) := by
  obtain ⟨h1, h2, h3, h4⟩ := h
  simp only [append_labels, append_label_list, List.headD_cons, List.tail_cons, append_int8]
  rw [Nat.mod_eq_of_lt (by omega)]
  have hwb : write_bytes l.name l.name_size = l.name := by
    rw [← h3]
    exact write_bytes_wf l.name h4
  rw [hwb]
  simp [List.append_assoc]

theorem labels_go_mkC (ls : List dnsmsg_label_t) (rest : List Nat) (fuel : Nat)
    (hwf : ∀ l ∈ ls, l.wf)
    (hfuel : (append_labels ls ls.length ++ rest).length ≤ fuel) :
    labels_go fuel (mkC (append_labels ls ls.length ++ rest)) = (ls, mkC rest) := by
  induction ls generalizing fuel rest with
  | nil =>
    have he : append_labels [] ([] : List dnsmsg_label_t).length = [0] := rfl
    rw [he]
    cases fuel with
    | zero =>
      simp only [labels_go, List.cons_append, List.nil_append]
      rw [pop_int8_mkC]
    | succ f =>
      simp only [labels_go, List.cons_append, List.nil_append]
      rw [pop_int8_mkC]
      simp
  | cons l t ih =>
    have hl : l.wf := hwf l (by simp)
    have hcons := append_labels_cons l t hl
    simp only [List.length_cons] at hfuel ⊢
    rw [hcons] at hfuel ⊢
    obtain ⟨hp1, hp2, hp3, hp4⟩ := hl
    cases fuel with
    | zero =>
      exfalso
      simp [List.length_cons] at hfuel
    | succ f =>
      simp only [labels_go, List.cons_append]
      rw [pop_int8_mkC]
      simp only []
      rw [Nat.mod_eq_of_lt (by omega)]
      rw [if_pos (by omega)]
      rw [List.append_assoc]
      conv_lhs => rw [← hp3]
      rw [popBytes_mkC l.name (append_labels t t.length ++ rest) hp4]
      simp only []
      rw [ih rest f (fun x hx => hwf x (by simp [hx])) ?_]
      · rw [hp3]
      · simp only [List.length_cons, List.length_append] at hfuel ⊢
        omega

theorem interpret_labels_mkC (ls : List dnsmsg_label_t) (rest : List Nat)
    (hwf : ∀ l ∈ ls, l.wf) :
    interpret_labels (mkC (append_labels ls ls.length ++ rest)) = (ls, mkC rest) := by
  unfold interpret_labels
  apply labels_go_mkC ls rest _ hwf
  simp only [mkC, List.length_append]
  omega

/-! ### Question, record, and message round-trips -/

theorem interpret_questions_mkC (qs : List dnsmsg_question_t) (rest : List Nat)
    (hwf : ∀ q ∈ qs, q.wf) :
    interpret_questions qs.length (mkC (append_questions qs qs.length ++ rest)) =
      (qs, mkC rest) := by
  induction qs generalizing rest with
  | nil => rfl
  | cons q t ih =>
    obtain ⟨w1, w2, w3, w4, w5⟩ := hwf q (by simp)
    simp only [List.length_cons, interpret_questions, append_questions,
      List.headD_cons, List.tail_cons, List.append_assoc]
    rw [w1]
    rw [interpret_labels_mkC q.labels _ w3]
    simp only []
    rw [pop_int16_mkC _ _ w4]
    simp only []
    rw [pop_int16_mkC _ _ w5]
    simp only []
    rw [ih rest (fun x hx => hwf x (by simp [hx]))]
    rw [Nat.mod_eq_of_lt w2, ← w1]

theorem interpret_rr_mkC (rs : List dnsmsg_rr_t) (rest : List Nat)
    (hwf : ∀ r ∈ rs, r.wf) :
    interpret_rr rs.length (mkC (append_resource_records rs rs.length ++ rest)) =
      (rs, mkC rest) := by
  induction rs generalizing rest with
  | nil => rfl
  | cons r t ih =>
    obtain ⟨w1, w2, w3, w4, w5, w6, w7, w8, w9⟩ := hwf r (by simp)
    simp only [List.length_cons, interpret_rr, append_resource_records,
      List.headD_cons, List.tail_cons, List.append_assoc]
    rw [w1]
    rw [interpret_labels_mkC r.labels _ w3]
    simp only []
    rw [pop_int16_mkC _ _ w4]
    simp only []
    rw [pop_int16_mkC _ _ w5]
    simp only []
    rw [pop_int32_mkC _ _ w6]
    simp only []
    rw [pop_int16_mkC _ _ (by rw [w7]; exact w8)]
    simp only []
    have hwb : write_bytes r.data r.data_size = r.data := by
      rw [w7]
      exact write_bytes_wf r.data w9
    rw [hwb, w7, popBytes_mkC r.data _ w9]
    simp only []
    rw [ih rest (fun x hx => hwf x (by simp [hx]))]
    rw [Nat.mod_eq_of_lt w2, ← w1, ← w7]

theorem interpret_message_mkC (m : dnsmsg_t) (h : m.wf) :
    interpret_message (mkC (serialize_message m)) = (m, mkC []) := by
  obtain ⟨h1, h2, h3, h4, h5, h6, h7, h8, h9, h10, h11, h12, h13, h14⟩ := h
  have hser : serialize_message m = serialize_message m ++ [] := by simp
  rw [hser]
  simp only [serialize_message, interpret_message, List.append_assoc]
  rw [pop_int16_mkC _ _ h1]
  simp only []
  rw [pop_int16_mkC _ _ h2]
  simp only []
  rw [pop_int16_mkC _ _ (by rw [h3]; exact h7)]
  simp only []
  rw [pop_int16_mkC _ _ (by rw [h4]; exact h8)]
  simp only []
  rw [pop_int16_mkC _ _ (by rw [h5]; exact h9)]
  simp only []
  rw [pop_int16_mkC _ _ (by rw [h6]; exact h10)]
  simp only []
  rw [h3, interpret_questions_mkC m.questions _ h11]
  simp only []
  rw [h4, interpret_rr_mkC m.answers _ h12]
  simp only []
  rw [h5, interpret_rr_mkC m.authorities _ h13]
  simp only []
  rw [h6, interpret_rr_mkC m.additionals _ h14]
  simp only []
  rw [← h3, ← h4, ← h5, ← h6]

/-! ### Cursor accounting: the decode walk pops exactly the size the decoded
structure declares -/

/-- Octets the label walk pops: one length octet plus the body per label,
plus the terminating zero octet. -/
def labels_pop_count (ls : List dnsmsg_label_t) : Nat :=
  1 + (ls.map (fun l => 1 + l.name_size)).sum

/-- Octets popped for one question: labels plus type and class. -/
def question_pop_count (q : dnsmsg_question_t) : Nat :=
  labels_pop_count q.labels + 4

/-- Octets popped for one record: labels, fixed fields, and the data run. -/
def rr_pop_count (r : dnsmsg_rr_t) : Nat :=
  labels_pop_count r.labels + 10 + r.data_size

/-- Octets popped for a whole message walk. -/
def message_pop_count (m : dnsmsg_t) : Nat :=
  12 + (m.questions.map question_pop_count).sum + (m.answers.map rr_pop_count).sum +
    (m.authorities.map rr_pop_count).sum + (m.additionals.map rr_pop_count).sum

/-- Shape facts true of every decoded label. -/
def decoded_label_ok (l : dnsmsg_label_t) : Prop :=
  l.name.length = l.name_size

/-- Shape facts true of every decoded question. -/
def decoded_question_ok (q : dnsmsg_question_t) : Prop :=
  q.labels_size = q.labels.length % 65536 ∧ ∀ l ∈ q.labels, decoded_label_ok l

/-- Shape facts true of every decoded record. -/
def decoded_rr_ok (r : dnsmsg_rr_t) : Prop :=
  r.labels_size = r.labels.length % 65536 ∧ (∀ l ∈ r.labels, decoded_label_ok l) ∧
    r.data.length = r.data_size

/-- Shape facts true of every decoded message: each header count equals the
length of the sequence decoded from it, and all parts have decoded shape. -/
def decoded_message_ok (m : dnsmsg_t) : Prop :=
  m.header.query_count = m.questions.length ∧ m.header.answer_count = m.answers.length ∧
    m.header.authority_count = m.authorities.length ∧
    m.header.additional_count = m.additionals.length ∧
    (∀ q ∈ m.questions, decoded_question_ok q) ∧ (∀ r ∈ m.answers, decoded_rr_ok r) ∧
    (∀ r ∈ m.authorities, decoded_rr_ok r) ∧ (∀ r ∈ m.additionals, decoded_rr_ok r)

theorem labels_go_rem (fuel : Nat) (c : Cursor) (hfuel : c.rem.toNat ≤ fuel) :
    ((labels_go fuel c).2).rem = c.rem - labels_pop_count (labels_go fuel c).1 ∧
      ∀ l ∈ (labels_go fuel c).1, decoded_label_ok l := by
  induction fuel generalizing c with
  | zero =>
    simp only [labels_go, labels_pop_count, List.map_nil, List.sum_nil]
    rw [pop_int8_rem]
    refine ⟨by push_cast; ring, by simp⟩
  | succ f ih =>
    simp only [labels_go]
    by_cases hpos : 0 < (pop_int8 c).1
    · rw [if_pos hpos]
      have hc1 : 1 ≤ c.rem := pop_int8_pos c hpos
      have hq : ((popBytes (pop_int8 c).1 (pop_int8 c).2).2).rem =
          c.rem - 1 - (pop_int8 c).1 := by
        rw [popBytes_rem, pop_int8_rem]
      have hfq : ((popBytes (pop_int8 c).1 (pop_int8 c).2).2).rem.toNat ≤ f := by
        rw [hq]
        omega
      obtain ⟨ihrem, ihok⟩ := ih _ hfq
      constructor
      · simp only []
        rw [ihrem, hq]
        simp only [labels_pop_count, List.map_cons, List.sum_cons]
        push_cast
        ring
      · intro l hl
        simp only [List.mem_cons] at hl
        rcases hl with hl | hl
        · subst hl
          exact popBytes_length _ _
        · exact ihok l hl
    · rw [if_neg hpos]
      simp only [labels_pop_count, List.map_nil, List.sum_nil]
      rw [pop_int8_rem]
      refine ⟨by push_cast; ring, by simp⟩

theorem interpret_labels_rem (c : Cursor) :
    ((interpret_labels c).2).rem = c.rem - labels_pop_count (interpret_labels c).1 ∧
      ∀ l ∈ (interpret_labels c).1, decoded_label_ok l :=
  labels_go_rem c.rem.toNat c le_rfl

theorem interpret_questions_rem (n : Nat) (c : Cursor) :
    ((interpret_questions n c).2).rem =
        c.rem - ((interpret_questions n c).1.map question_pop_count).sum ∧
      (interpret_questions n c).1.length = n ∧
      ∀ q ∈ (interpret_questions n c).1, decoded_question_ok q := by
  induction n generalizing c with
  | zero => simp [interpret_questions]
  | succ k ih =>
    simp only [interpret_questions]
    obtain ⟨hLrem, hLok⟩ := interpret_labels_rem c
    obtain ⟨ihrem, ihlen, ihok⟩ := ih (pop_int16 (pop_int16 (interpret_labels c).2).2).2
    refine ⟨?_, by simp [ihlen], ?_⟩
    · rw [ihrem, pop_int16_rem, pop_int16_rem, hLrem]
      simp only [List.map_cons, List.sum_cons, question_pop_count]
      push_cast
      ring
    · intro q hq
      simp only [List.mem_cons] at hq
      rcases hq with hq | hq
      · subst hq
        exact ⟨rfl, hLok⟩
      · exact ihok q hq

theorem interpret_rr_rem (n : Nat) (c : Cursor) :
    ((interpret_rr n c).2).rem = c.rem - ((interpret_rr n c).1.map rr_pop_count).sum ∧
      (interpret_rr n c).1.length = n ∧
      ∀ r ∈ (interpret_rr n c).1, decoded_rr_ok r := by
  induction n generalizing c with
  | zero => simp [interpret_rr]
  | succ k ih =>
    simp only [interpret_rr]
    obtain ⟨hLrem, hLok⟩ := interpret_labels_rem c
    set c1 := (interpret_labels c).2 with hc1
    set c2 := (pop_int16 c1).2 with hc2
    set c3 := (pop_int16 c2).2 with hc3
    set c4 := (pop_int32 c3).2 with hc4
    set c5 := (pop_int16 c4).2 with hc5
    set c6 := (popBytes (pop_int16 c4).1 c5).2 with hc6
    obtain ⟨ihrem, ihlen, ihok⟩ := ih c6
    refine ⟨?_, by simp [ihlen], ?_⟩
    · rw [ihrem, hc6, popBytes_rem, hc5, pop_int16_rem, hc4, pop_int32_rem, hc3,
        pop_int16_rem, hc2, pop_int16_rem, hc1, hLrem]
      simp only [List.map_cons, List.sum_cons, rr_pop_count]
      push_cast
      ring
    · intro r hr
      simp only [List.mem_cons] at hr
      rcases hr with hr | hr
      · subst hr
        exact ⟨rfl, hLok, popBytes_length _ _⟩
      · exact ihok r hr

theorem interpret_message_rem (c : Cursor) :
    ((interpret_message c).2).rem =
        c.rem - message_pop_count (interpret_message c).1 ∧
      decoded_message_ok (interpret_message c).1 := by
  simp only [interpret_message]
  set c1 := (pop_int16 c).2 with hc1
  set c2 := (pop_int16 c1).2 with hc2
  set c3 := (pop_int16 c2).2 with hc3
  set c4 := (pop_int16 c3).2 with hc4
  set c5 := (pop_int16 c4).2 with hc5
  set c6 := (pop_int16 c5).2 with hc6
  obtain ⟨hqrem, hqlen, hqok⟩ := interpret_questions_rem (pop_int16 c2).1 c6
  set cq := (interpret_questions (pop_int16 c2).1 c6).2 with hcq
  obtain ⟨harem, halen, haok⟩ := interpret_rr_rem (pop_int16 c3).1 cq
  set ca := (interpret_rr (pop_int16 c3).1 cq).2 with hca
  obtain ⟨hurem, hulen, huok⟩ := interpret_rr_rem (pop_int16 c4).1 ca
  set cu := (interpret_rr (pop_int16 c4).1 ca).2 with hcu
  obtain ⟨hdrem, hdlen, hdok⟩ := interpret_rr_rem (pop_int16 c5).1 cu
  constructor
  · rw [hdrem, hurem, harem, hqrem, hc6, pop_int16_rem, hc5, pop_int16_rem, hc4,
      pop_int16_rem, hc3, pop_int16_rem, hc2, pop_int16_rem, hc1, pop_int16_rem]
    simp only [message_pop_count]
    push_cast
    ring
  · exact ⟨hqlen.symm, halen.symm, hulen.symm, hdlen.symm, hqok, haok, huok, hdok⟩

/-! ### Size bridges between the walk counts and `calc_message_size` -/

/-- All label lists of the message have fewer than 65536 entries, so the
16-bit `labels_size` fields hold the exact counts. -/
def small_names (m : dnsmsg_t) : Prop :=
  (∀ q ∈ m.questions, q.labels.length < 65536) ∧
    (∀ r ∈ m.answers, r.labels.length < 65536) ∧
    (∀ r ∈ m.authorities, r.labels.length < 65536) ∧
    (∀ r ∈ m.additionals, r.labels.length < 65536)

instance (m : dnsmsg_t) : Decidable (small_names m) := by
  unfold small_names
  infer_instance

theorem calc_labels_size_eq (ls : List dnsmsg_label_t) :
    calc_labels_size ls ls.length = labels_pop_count ls := by
  induction ls with
  | nil => rfl
  | cons l t ih =>
    simp only [List.length_cons, calc_labels_size, List.headD_cons, List.tail_cons, ih,
      labels_pop_count, List.map_cons, List.sum_cons]
    ring

theorem calc_questions_size_eq (qs : List dnsmsg_question_t)
    (h : ∀ q ∈ qs, q.labels_size = q.labels.length) :
    calc_questions_size qs qs.length = (qs.map question_pop_count).sum := by
  induction qs with
  | nil => rfl
  | cons q t ih =>
    simp only [List.length_cons, calc_questions_size, List.headD_cons, List.tail_cons,
      List.map_cons, List.sum_cons, question_pop_count]
    rw [h q (by simp), calc_labels_size_eq, ih (fun x hx => h x (by simp [hx]))]

theorem calc_rr_size_eq (rs : List dnsmsg_rr_t)
    (h : ∀ r ∈ rs, r.labels_size = r.labels.length) :
    calc_resource_records_size rs rs.length = (rs.map rr_pop_count).sum := by
  induction rs with
  | nil => rfl
  | cons r t ih =>
    simp only [List.length_cons, calc_resource_records_size, List.headD_cons, List.tail_cons,
      List.map_cons, List.sum_cons, rr_pop_count]
    rw [h r (by simp), calc_labels_size_eq, ih (fun x hx => h x (by simp [hx]))]

theorem calc_message_size_eq (m : dnsmsg_t) (hok : decoded_message_ok m)
    (hsmall : small_names m) :
    calc_message_size m = message_pop_count m := by
  obtain ⟨k1, k2, k3, k4, oq, oa, ou, od⟩ := hok
  obtain ⟨s1, s2, s3, s4⟩ := hsmall
  simp only [calc_message_size, message_pop_count, k1, k2, k3, k4]
  rw [calc_questions_size_eq m.questions
      (fun q hq => by rw [(oq q hq).1, Nat.mod_eq_of_lt (s1 q hq)]),
    calc_rr_size_eq m.answers
      (fun r hr => by rw [(oa r hr).1, Nat.mod_eq_of_lt (s2 r hr)]),
    calc_rr_size_eq m.authorities
      (fun r hr => by rw [(ou r hr).1, Nat.mod_eq_of_lt (s3 r hr)]),
    calc_rr_size_eq m.additionals
      (fun r hr => by rw [(od r hr).1, Nat.mod_eq_of_lt (s4 r hr)])]

/-! ### Length of the serialized buffer -/

theorem append_int16_length (v : Nat) : (append_int16 v).length = 2 := by
  simp [append_int16, append_int8]

theorem append_int32_length (v : Nat) : (append_int32 v).length = 4 := by
  simp [append_int32, append_int16, append_int8]

theorem append_labels_length (ls : List dnsmsg_label_t) (n : Nat) :
    (append_labels ls n).length = calc_labels_size ls n := by
  induction n generalizing ls with
  | zero => rfl
  | succ k ih =>
    simp only [append_labels, append_label_list, calc_labels_size, List.length_append,
      append_int8, List.length_cons, List.length_nil, write_bytes_length] at ih ⊢
    have := ih ls.tail
    omega

theorem append_questions_length (qs : List dnsmsg_question_t) (n : Nat) :
    (append_questions qs n).length = calc_questions_size qs n := by
  induction n generalizing qs with
  | zero => rfl
  | succ k ih =>
    simp only [append_questions, calc_questions_size, List.length_append,
      append_labels_length, append_int16_length, ih]

theorem append_resource_records_length (rs : List dnsmsg_rr_t) (n : Nat) :
    (append_resource_records rs n).length = calc_resource_records_size rs n := by
  induction n generalizing rs with
  | zero => rfl
  | succ k ih =>
    simp only [append_resource_records, calc_resource_records_size, List.length_append,
      append_labels_length, append_int16_length, append_int32_length, write_bytes_length, ih]

theorem serialize_message_length (m : dnsmsg_t) :
    (serialize_message m).length = calc_message_size m := by
  simp only [serialize_message, calc_message_size, List.length_append, append_int16_length,
    append_questions_length, append_resource_records_length]

/-! ### Spec-level size formula (for the refinement claim about
`calc_message_size`) -/

/-- The label-list size exactly as the spec words it: 1 (terminator) plus,
per label, 1 plus the label length (its octet count). -/
def spec_labels_size (ls : List dnsmsg_label_t) : Nat :=
  1 + (ls.map (fun l => 1 + l.name.length)).sum

/-- The message size exactly as the spec words it: 12 header octets, per
question the label-list size plus 4, and per record across the three
sections the label-list size plus 2 + 2 + 4 + 2 + data_size. -/
def spec_message_size (m : dnsmsg_t) : Nat :=
  12 + (m.questions.map (fun q => spec_labels_size q.labels + 4)).sum +
    ((m.answers ++ m.authorities ++ m.additionals).map
      (fun r => spec_labels_size r.labels + 2 + 2 + 4 + 2 + r.data_size)).sum

theorem labels_pop_count_spec (ls : List dnsmsg_label_t)
    (h : ∀ l ∈ ls, l.name.length = l.name_size) :
    labels_pop_count ls = spec_labels_size ls := by
  unfold labels_pop_count spec_labels_size
  congr 1
  apply congrArg
  exact (List.map_eq_map_iff.mpr (fun l hl => by rw [h l hl])).symm

theorem wf_decoded_ok (m : dnsmsg_t) (h : m.wf) : decoded_message_ok m ∧ small_names m := by
  obtain ⟨h1, h2, h3, h4, h5, h6, h7, h8, h9, h10, h11, h12, h13, h14⟩ := h
  refine ⟨⟨h3, h4, h5, h6, ?_, ?_, ?_, ?_⟩,
    ⟨fun q hq => (h11 q hq).2.1, fun r hr => (h12 r hr).2.1,
      fun r hr => (h13 r hr).2.1, fun r hr => (h14 r hr).2.1⟩⟩
  · intro q hq
    obtain ⟨w1, w2, w3, _, _⟩ := h11 q hq
    exact ⟨by rw [w1, Nat.mod_eq_of_lt w2], fun l hl => ((w3 l hl).2.2.1 : _)⟩
  · intro r hr
    obtain ⟨w1, w2, w3, _, _, _, w7, _, _⟩ := h12 r hr
    exact ⟨by rw [w1, Nat.mod_eq_of_lt w2], fun l hl => ((w3 l hl).2.2.1 : _), w7.symm⟩
  · intro r hr
    obtain ⟨w1, w2, w3, _, _, _, w7, _, _⟩ := h13 r hr
    exact ⟨by rw [w1, Nat.mod_eq_of_lt w2], fun l hl => ((w3 l hl).2.2.1 : _), w7.symm⟩
  · intro r hr
    obtain ⟨w1, w2, w3, _, _, _, w7, _, _⟩ := h14 r hr
    exact ⟨by rw [w1, Nat.mod_eq_of_lt w2], fun l hl => ((w3 l hl).2.2.1 : _), w7.symm⟩

theorem message_pop_count_spec (m : dnsmsg_t) (h : m.wf) :
    message_pop_count m = spec_message_size m := by
  obtain ⟨h1, h2, h3, h4, h5, h6, h7, h8, h9, h10, h11, h12, h13, h14⟩ := h
  unfold message_pop_count spec_message_size
  rw [List.map_append, List.map_append, List.sum_append, List.sum_append]
  have eq1 : m.questions.map question_pop_count =
      m.questions.map (fun q => spec_labels_size q.labels + 4) := by
    refine List.map_eq_map_iff.mpr (fun q hq => ?_)
    unfold question_pop_count
    rw [labels_pop_count_spec q.labels
      (fun l hl => ((((h11 q hq).2.2.1) l hl).2.2.1 : _))]
  have eqr : ∀ rs : List dnsmsg_rr_t, (∀ r ∈ rs, r.wf) →
      rs.map rr_pop_count =
        rs.map (fun r => spec_labels_size r.labels + 2 + 2 + 4 + 2 + r.data_size) := by
    intro rs hrs
    refine List.map_eq_map_iff.mpr (fun r hr => ?_)
    unfold rr_pop_count
    rw [labels_pop_count_spec r.labels
      (fun l hl => ((((hrs r hr).2.2.1) l hl).2.2.1 : _))]
  rw [eq1, eqr m.answers h12, eqr m.authorities h13, eqr m.additionals h14]
  ring

/-! ### Concrete sample data (the spec's scenario) -/

/-- The label list for the name example.com. -/
def sample_labels : List dnsmsg_label_t :=
  [⟨7, [101, 120, 97, 109, 112, 108, 101]⟩, ⟨3, [99, 111, 109]⟩]

/-- The scenario message: id 0x1234, status flags 0x0100 (RD set), one
question for example.com with type 1 and class 1, no records. -/
def sample_message : dnsmsg_t :=
  ⟨⟨0x1234, 0x0100, 1, 0, 0, 0⟩, [⟨2, sample_labels, 1, 1⟩], [], [], []⟩

/-- The 29 octets the scenario requires on the wire. -/
def sample_buffer : List Nat :=
  [0x12, 0x34, 0x01, 0x00, 0x00, 0x01, 0x00, 0x00, 0x00, 0x00, 0x00, 0x00,
   7, 101, 120, 97, 109, 112, 108, 101, 3, 99, 111, 109, 0, 0x00, 0x01, 0x00, 0x01]

/-- A truncated buffer: the scenario buffer cut off after 20 octets. -/
def truncated_buffer : List Nat :=
  List.take 20 sample_buffer

/-! ### Claims -/

/-- C1: for every structurally valid message m (counts equal to sequence
lengths, label lengths 1..255 equal to their octet counts, data_size equal
to the data length), decoding the buffer produced by encoding m, with the
buffer's length as the declared size, yields (m, flag 0): the message is
structurally equal to m and the malformed flag stays unraised. -/
theorem decode_serialize_roundtrip (m : dnsmsg_t) (h : m.wf) :
    interpret_question (serialize_message m) ((serialize_message m).length : Int) 0 =
      (m, 0) := by
  have hm := interpret_message_mkC m h
  simp only [interpret_question]
  have hcur : (⟨serialize_message m, ((serialize_message m).length : Int)⟩ : Cursor) =
      mkC (serialize_message m) := rfl
  rw [hcur, hm]
  norm_num [mkC]

theorem decode_serialize_roundtrip_witness :
    sample_message.wf ∧
      interpret_question (serialize_message sample_message)
        ((serialize_message sample_message).length : Int) 0 = (sample_message, 0) :=
  ⟨by decide, decode_serialize_roundtrip sample_message (by decide)⟩

/-- C2: decoding sets the malformed flag (value 1 with a clean incoming
flag) exactly when the final remaining-length counter is negative after the
whole declared structure has been walked; and, since the walk consumes
exactly `calc_message_size` of what it decoded, the flag is set exactly when
the buffer's declared size is smaller than the size its header counts and
embedded length fields declare.  The label-count hypothesis only rules out
names with 65536 or more labels, where the 16-bit `labels_size` field
overflows. -/
theorem decode_malformed_iff_short (buf : List Nat) (size : Int)
    (hsmall : small_names (interpret_message ⟨buf, size⟩).1) :
    ((interpret_question buf size 0).2 = 1 ↔
        size < (calc_message_size (interpret_question buf size 0).1 : Int)) ∧
      ((interpret_question buf size 0).2 = 1 ↔
        (interpret_message ⟨buf, size⟩).2.rem < 0) := by
  obtain ⟨hrem, hok⟩ := interpret_message_rem ⟨buf, size⟩
  have hcalc : calc_message_size (interpret_message ⟨buf, size⟩).1 =
      message_pop_count (interpret_message ⟨buf, size⟩).1 :=
    calc_message_size_eq _ hok hsmall
  simp only [interpret_question]
  have hiff : ((if (interpret_message ⟨buf, size⟩).2.rem < 0 then (1 : Int) else 0) = 1) ↔
      (interpret_message ⟨buf, size⟩).2.rem < 0 := by
    by_cases hc : (interpret_message ⟨buf, size⟩).2.rem < 0
    · simp [hc]
    · simp [hc]
  refine ⟨?_, hiff⟩
  have hs : ((⟨buf, size⟩ : Cursor)).rem = size := rfl
  rw [hiff, hcalc, hrem, hs]
  omega

theorem decode_malformed_iff_short_witness :
    small_names (interpret_message ⟨truncated_buffer, 20⟩).1 ∧
      (((interpret_question truncated_buffer 20 0).2 = 1 ↔
          (20 : Int) < (calc_message_size (interpret_question truncated_buffer 20 0).1 : Int)) ∧
        ((interpret_question truncated_buffer 20 0).2 = 1 ↔
          (interpret_message ⟨truncated_buffer, 20⟩).2.rem < 0)) :=
  ⟨by decide, decode_malformed_iff_short truncated_buffer 20 (by decide)⟩

/-- C3: on every cursor of byte values, `pop_int8` decrements the counter by
exactly one, consumes and returns the front octet when the decremented
counter is still non-negative, and returns zero without consuming anything
otherwise (so the counter can go negative while reads return zero-fill);
`pop_int16` is its two pops combined big-endian and drops the counter by 2,
and `pop_int32` is its two 16-bit pops combined big-endian, dropping it
by 4. -/
theorem pop_semantics (c : Cursor) (hb : ∀ b ∈ c.view, b < 256) :
    (((pop_int8 c).2).rem = c.rem - 1) ∧
      (0 ≤ c.rem - 1 → pop_int8 c = (c.view.headD 0, ⟨c.view.tail, c.rem - 1⟩)) ∧
      (c.rem - 1 < 0 → pop_int8 c = (0, ⟨c.view, c.rem - 1⟩)) ∧
      (pop_int16 c = ((pop_int8 c).1 <<< 8 ||| (pop_int8 (pop_int8 c).2).1,
        (pop_int8 (pop_int8 c).2).2)) ∧
      (((pop_int16 c).2).rem = c.rem - 2) ∧
      (pop_int32 c = ((pop_int16 c).1 <<< 16 ||| (pop_int16 (pop_int16 c).2).1,
        (pop_int16 (pop_int16 c).2).2)) ∧
      (((pop_int32 c).2).rem = c.rem - 4) := by
  have hhead : c.view.headD 0 % 256 = c.view.headD 0 := by
    cases hcv : c.view with
    | nil => rfl
    | cons a t => exact Nat.mod_eq_of_lt (hb a (by rw [hcv]; simp))
  refine ⟨pop_int8_rem c, ?_, ?_, ?_, pop_int16_rem c, ?_, pop_int32_rem c⟩
  · intro h
    unfold pop_int8
    rw [if_pos h, hhead]
  · intro h
    unfold pop_int8
    rw [if_neg (by omega)]
  · simp only [pop_int16]
    rw [shl8_or _ _ (pop_int8_lt _)]
    rw [Nat.mod_eq_of_lt (by have := pop_int8_lt c; have := pop_int8_lt (pop_int8 c).2; omega)]
  · simp only [pop_int32]
    rw [shl16_or _ _ (pop_int16_lt _)]
    rw [Nat.mod_eq_of_lt (by have := pop_int16_lt c; have := pop_int16_lt (pop_int16 c).2; omega)]

theorem pop_semantics_witness :
    (∀ b ∈ (⟨[200, 201], 2⟩ : Cursor).view, b < 256) ∧
      ((((pop_int8 (⟨[200, 201], 2⟩ : Cursor)).2).rem = (⟨[200, 201], 2⟩ : Cursor).rem - 1) ∧
        (0 ≤ (⟨[200, 201], 2⟩ : Cursor).rem - 1 →
          pop_int8 (⟨[200, 201], 2⟩ : Cursor) =
            ((⟨[200, 201], 2⟩ : Cursor).view.headD 0,
              ⟨(⟨[200, 201], 2⟩ : Cursor).view.tail, (⟨[200, 201], 2⟩ : Cursor).rem - 1⟩)) ∧
        ((⟨[200, 201], 2⟩ : Cursor).rem - 1 < 0 →
          pop_int8 (⟨[200, 201], 2⟩ : Cursor) =
            (0, ⟨(⟨[200, 201], 2⟩ : Cursor).view, (⟨[200, 201], 2⟩ : Cursor).rem - 1⟩)) ∧
        (pop_int16 (⟨[200, 201], 2⟩ : Cursor) =
          ((pop_int8 (⟨[200, 201], 2⟩ : Cursor)).1 <<< 8 |||
              (pop_int8 (pop_int8 (⟨[200, 201], 2⟩ : Cursor)).2).1,
            (pop_int8 (pop_int8 (⟨[200, 201], 2⟩ : Cursor)).2).2)) ∧
        (((pop_int16 (⟨[200, 201], 2⟩ : Cursor)).2).rem = (⟨[200, 201], 2⟩ : Cursor).rem - 2) ∧
        (pop_int32 (⟨[200, 201], 2⟩ : Cursor) =
          ((pop_int16 (⟨[200, 201], 2⟩ : Cursor)).1 <<< 16 |||
              (pop_int16 (pop_int16 (⟨[200, 201], 2⟩ : Cursor)).2).1,
            (pop_int16 (pop_int16 (⟨[200, 201], 2⟩ : Cursor)).2).2)) ∧
        (((pop_int32 (⟨[200, 201], 2⟩ : Cursor)).2).rem = (⟨[200, 201], 2⟩ : Cursor).rem - 4)) :=
  ⟨by decide, pop_semantics (⟨[200, 201], 2⟩ : Cursor) (by decide)⟩

/-- C4: for every structurally valid message, `calc_message_size` equals 12
plus, per question, its label-list size plus 4, plus, per record across the
three sections, its label-list size plus 2 + 2 + 4 + 2 + data_size, where a
label-list size is 1 plus the sum over its labels of 1 plus the label
length. -/
theorem calc_message_size_spec (m : dnsmsg_t) (h : m.wf) :
    calc_message_size m = spec_message_size m := by
  obtain ⟨hok, hsmall⟩ := wf_decoded_ok m h
  rw [calc_message_size_eq m hok hsmall, message_pop_count_spec m h]

theorem calc_message_size_spec_witness :
    sample_message.wf ∧ calc_message_size sample_message = spec_message_size sample_message :=
  ⟨by decide, calc_message_size_spec sample_message (by decide)⟩

/-- C5: for every structurally valid message, the buffer `serialize_message`
builds (whose allocation is `calc_message_size m` octets and whose final
write index is its length) has length exactly `calc_message_size m`. -/
theorem serialize_length_eq_calc (m : dnsmsg_t) (h : m.wf) :
    (serialize_message m).length = calc_message_size m :=
  serialize_message_length m

theorem serialize_length_eq_calc_witness :
    sample_message.wf ∧ (serialize_message sample_message).length =
      calc_message_size sample_message :=
  ⟨by decide, serialize_length_eq_calc sample_message (by decide)⟩

set_option maxHeartbeats 1000000 in
/-- C6: for all one-bit qr, aa, tc, rd, ra and four-bit opcode and rcode,
decoding the encoded status word returns the same seven values, and the
encoded word has layout qr(1) opcode(4) aa(1) tc(1) rd(1) ra(1) Z(3, zero)
rcode(4) from the most significant bit down. -/
theorem status_flags_roundtrip :
    ∀ qr < 2, ∀ opcode < 16, ∀ aa < 2, ∀ tc < 2, ∀ rd < 2, ∀ ra < 2, ∀ rcode < 16,
      decode_status_flags (encode_status_flags qr opcode aa tc rd ra rcode) =
          (qr, opcode, aa, tc, rd, ra, rcode) ∧
        encode_status_flags qr opcode aa tc rd ra rcode =
          qr * 32768 + opcode * 2048 + aa * 1024 + tc * 512 + rd * 256 + ra * 128 + rcode := by
  intro qr hqr opcode hop aa haa tc htc rd hrd ra hra rcode hrc
  have e1 : (0 : Nat) <<< 4 ||| rcode = rcode := by
    simp [Nat.zero_shiftLeft]
  have e2 : ra <<< 7 ||| rcode = ra * 128 + rcode := by
    have := or_shl 7 ra rcode (by norm_num; omega)
    norm_num at this
    exact this
  have e3 : rd <<< 8 ||| (ra * 128 + rcode) = rd * 256 + (ra * 128 + rcode) := by
    have := or_shl 8 rd (ra * 128 + rcode) (by norm_num; omega)
    norm_num at this
    exact this
  have e4 : tc <<< 9 ||| (rd * 256 + (ra * 128 + rcode)) =
      tc * 512 + (rd * 256 + (ra * 128 + rcode)) := by
    have := or_shl 9 tc (rd * 256 + (ra * 128 + rcode)) (by norm_num; omega)
    norm_num at this
    exact this
  have e5 : aa <<< 10 ||| (tc * 512 + (rd * 256 + (ra * 128 + rcode))) =
      aa * 1024 + (tc * 512 + (rd * 256 + (ra * 128 + rcode))) := by
    have := or_shl 10 aa (tc * 512 + (rd * 256 + (ra * 128 + rcode))) (by norm_num; omega)
    norm_num at this
    exact this
  have e6 : opcode <<< 11 ||| (aa * 1024 + (tc * 512 + (rd * 256 + (ra * 128 + rcode)))) =
      opcode * 2048 + (aa * 1024 + (tc * 512 + (rd * 256 + (ra * 128 + rcode)))) := by
    have := or_shl 11 opcode (aa * 1024 + (tc * 512 + (rd * 256 + (ra * 128 + rcode))))
      (by norm_num; omega)
    norm_num at this
    exact this
  have e7 : qr <<< 15 |||
        (opcode * 2048 + (aa * 1024 + (tc * 512 + (rd * 256 + (ra * 128 + rcode))))) =
      qr * 32768 +
        (opcode * 2048 + (aa * 1024 + (tc * 512 + (rd * 256 + (ra * 128 + rcode))))) := by
    have := or_shl 15 qr
      (opcode * 2048 + (aa * 1024 + (tc * 512 + (rd * 256 + (ra * 128 + rcode)))))
      (by norm_num; omega)
    norm_num at this
    exact this
  have henc : encode_status_flags qr opcode aa tc rd ra rcode =
      qr * 32768 + opcode * 2048 + aa * 1024 + tc * 512 + rd * 256 + ra * 128 + rcode := by
    unfold encode_status_flags
    simp only [Nat.lor_assoc]
    rw [e1, e2, e3, e4, e5, e6, e7]
    rw [Nat.mod_eq_of_lt (by omega)]
    ring
  refine ⟨?_, henc⟩
  rw [henc]
  unfold decode_status_flags
  simp only [Nat.shiftRight_eq_div_pow, Nat.and_one_is_mod, and15_eq, Prod.mk.injEq]
  norm_num
  refine ⟨?_, ?_, ?_, ?_, ?_, ?_, ?_⟩ <;> omega

theorem status_flags_roundtrip_witness :
    ((1 : Nat) < 2 ∧ (2 : Nat) < 16 ∧ (0 : Nat) < 2 ∧ (3 : Nat) < 16) ∧
      (decode_status_flags (encode_status_flags 1 2 1 0 1 1 3) = (1, 2, 1, 0, 1, 1, 3) ∧
        encode_status_flags 1 2 1 0 1 1 3 =
          1 * 32768 + 2 * 2048 + 1 * 1024 + 0 * 512 + 1 * 256 + 1 * 128 + 3) :=
  ⟨by decide, status_flags_roundtrip 1 (by decide) 2 (by decide) 1 (by decide) 0 (by decide)
    1 (by decide) 1 (by decide) 3 (by decide)⟩

/-- C7: encoding the scenario message (id 0x1234, flags 0x0100, one question
for example.com with type 1 and class 1, no records) yields exactly the 29
scenario octets, and decoding exactly those octets reproduces the message
with the malformed flag left unset. -/
theorem concrete_scenario :
    serialize_message sample_message = sample_buffer ∧
      interpret_question sample_buffer ((sample_buffer.length : Int)) 0 =
        (sample_message, 0) := by
  constructor
  · decide
  · decide

/-- C8: `append_labels` on a valid label list emits, per label in order, its
length octet then its raw octets, and then exactly one zero terminator
octet; in particular a name with zero labels emits exactly the single
octet 0. -/
theorem append_labels_spec (ls : List dnsmsg_label_t) (h : ∀ l ∈ ls, l.wf) :
    append_labels ls ls.length = (ls.map (fun l => l.name_size :: l.name)).flatten ++ [0] ∧
      append_labels [] 0 = [0] := by
  refine ⟨?_, rfl⟩
  induction ls with
  | nil => rfl
  | cons l t ih =>
    rw [List.length_cons, append_labels_cons l t (h l (by simp))]
    rw [ih (fun x hx => h x (by simp [hx]))]
    simp [List.append_assoc]

theorem append_labels_spec_witness :
    (∀ l ∈ sample_labels, l.wf) ∧
      (append_labels sample_labels sample_labels.length =
          (sample_labels.map (fun l => l.name_size :: l.name)).flatten ++ [0] ∧
        append_labels [] 0 = [0]) :=
  ⟨by decide, append_labels_spec sample_labels (by decide)⟩

/-- C9: `is_truncated` returns exactly bit 9 of the header status word as a
0/1 value, whatever the other bits of the word are. -/
theorem is_truncated_bit9 (m : dnsmsg_t) :
    is_truncated m = if m.header.status_flags.testBit 9 then 1 else 0 := by
  unfold is_truncated
  rw [Nat.and_one_is_mod, Nat.shiftRight_eq_div_pow, Nat.testBit_to_div_mod]
  norm_num
  rcases Nat.mod_two_eq_zero_or_one (m.header.status_flags / 512) with h | h <;> simp [h]

/-- C10: the decode path writes 1 into the caller's flag location only when
the final remaining counter is negative, and otherwise leaves the incoming
flag value (whatever it was) completely untouched rather than clearing it
to 0. -/
theorem error_flag_write_behavior (buffer : List Nat) (buffer_size error_flag : Int) :
    (interpret_question buffer buffer_size error_flag).2 =
        (if (interpret_message ⟨buffer, buffer_size⟩).2.rem < 0 then 1 else error_flag) ∧
      (0 ≤ (interpret_message ⟨buffer, buffer_size⟩).2.rem →
        (interpret_question buffer buffer_size error_flag).2 = error_flag) := by
  constructor
  · rfl
  · intro h
    simp only [interpret_question]
    rw [if_neg (by omega)]

theorem error_flag_write_behavior_witness :
    0 ≤ (interpret_message ⟨sample_buffer, 29⟩).2.rem ∧
      (interpret_question sample_buffer 29 7).2 = 7 :=
  ⟨by decide, (error_flag_write_behavior sample_buffer 29 7).2 (by decide)⟩
